import Mathlib

/-!
Shallow embedding of the account/address and coinbase-shielding core of the
zcash wallet, as exercised by qa/rpc-tests/wallet_accounts.py and
qa/rpc-tests/wallet_shieldcoinbase.py.  The wallet implementation itself is not
part of the source tree (only the RPC tests are), so every operation below is
modelled from the specification document; the tests' concrete expectations
appear as concrete scenarios inside the theorems.
-/

/-- Modelled from the spec: the three receiver/pool kinds
{Transparent, PoolA (Sapling-analog), PoolB (Orchard-analog)}.  The wallet's
pool enumeration is not under src/. -/
inductive ReceiverType
  | transparent
  | poolA
  | poolB
deriving DecidableEq, Fintype

/-- Modelled from the spec: a UnifiedAddress is bound to one
(Account, DiversifierIndex) pair and carries an ordered, deduplicated
collection of receivers; two addresses are distinct if either the account or
the diversifier index differs.  The wallet's address type is not under src/. -/
structure UnifiedAddress where
  account : Nat
  diversifierIndex : Nat
  receiverTypes : List ReceiverType
deriving DecidableEq

/-- Modelled from the spec: the external Key Derivation Service.  Validity of a
diversifier index is pool-dependent and decided by this collaborator
(DeriveReceiver may fail with InvalidDiversifier); the service is deterministic
in (account, pool, index). -/
structure KeyDerivation where
  validIndex : Nat → ReceiverType → Nat → Bool

/-- Errors of the Account Manager derivation path. -/
inductive DeriveError
  | invalidDiversifier (index : Nat)
  | emptyReceiverSet
deriving DecidableEq

deriving instance DecidableEq for Except

/-- All requested receiver types are derivable at index j for the account. -/
def derivable (kds : KeyDerivation) (account : Nat) (types : List ReceiverType)
    (j : Nat) : Bool :=
  types.all (fun t => kds.validIndex account t j)

/-- Modelled from the spec: explicit derivation
(z_getaddressforaccount with an explicit diversifier index, whose wallet-side
implementation is not under src/): deterministically derive exactly that
address, failing with InvalidDiversifier naming the index if any requested
receiver type cannot be derived there.  A request must carry a non-empty set of
receiver types. -/
def deriveAddressAt (kds : KeyDerivation) (account : Nat)
    (types : List ReceiverType) (j : Nat) : Except DeriveError UnifiedAddress :=
  if types.isEmpty then .error .emptyReceiverSet
  else if derivable kds account types j then
    .ok ⟨account, j, types.dedup⟩
  else .error (.invalidDiversifier j)

/-- Scan diversifier indices upward (bounded by fuel) for the first index at
which every requested receiver type derives. -/
def findValidIndex (kds : KeyDerivation) (account : Nat)
    (types : List ReceiverType) : Nat → Nat → Option Nat
  | 0, _ => none
  | fuel + 1, j =>
    if derivable kds account types j then some j
    else findValidIndex kds account types fuel (j + 1)

/-- Modelled from the spec: default derivation (z_getaddressforaccount with no
explicit diversifier index, whose wallet-side implementation is not under
src/): scan indices in increasing order from the account's persisted
next-search-index cursor, return the first address where all requested types
derive, and persist the cursor past the returned index so that the next
default-address call advances.  Returns the address together with the new
cursor value. -/
def z_getaddressforaccount (kds : KeyDerivation) (account : Nat)
    (types : List ReceiverType) (cursor : Nat) (fuel : Nat) :
    Option (UnifiedAddress × Nat) :=
  if types.isEmpty then none
  else
    match findValidIndex kds account types fuel cursor with
    | some j => some (⟨account, j, types.dedup⟩, j + 1)
    | none => none

/-- Default receiver-type set used when a request leaves the types
unspecified. -/
def fullReceiverSet : List ReceiverType :=
  [.transparent, .poolA, .poolB]

theorem findValidIndex_ge (kds : KeyDerivation) (account : Nat)
    (types : List ReceiverType) (fuel : Nat) :
    ∀ start j, findValidIndex kds account types fuel start = some j →
      start ≤ j := by
  induction fuel with
  | zero => intro start j h; simp [findValidIndex] at h
  | succ n ih =>
    intro start j h
    simp only [findValidIndex] at h
    split at h
    · cases h; exact Nat.le_refl _
    · exact Nat.le_of_succ_le (ih (start + 1) j h)

theorem findValidIndex_derivable (kds : KeyDerivation) (account : Nat)
    (types : List ReceiverType) (fuel : Nat) :
    ∀ start j, findValidIndex kds account types fuel start = some j →
      derivable kds account types j = true := by
  induction fuel with
  | zero => intro start j h; simp [findValidIndex] at h
  | succ n ih =>
    intro start j h
    simp only [findValidIndex] at h
    split at h
    · cases h; assumption
    · exact ih (start + 1) j h

theorem findValidIndex_not_before (kds : KeyDerivation) (account : Nat)
    (types : List ReceiverType) (fuel : Nat) :
    ∀ start j, findValidIndex kds account types fuel start = some j →
      ∀ i, start ≤ i → i < j → derivable kds account types i = false := by
  induction fuel with
  | zero => intro start j h; simp [findValidIndex] at h
  | succ n ih =>
    intro start j h i hsi hij
    simp only [findValidIndex] at h
    split at h
    · cases h; exact absurd hij (Nat.not_lt.mpr hsi)
    · rename_i hd
      rcases Nat.eq_or_lt_of_le hsi with heq | hlt
      · subst heq
        exact Bool.eq_false_iff.mpr hd
      · exact ih (start + 1) j h i hlt hij

/-- Key Derivation Service sample in which every diversifier index is valid for
every pool. -/
def kdsAll : KeyDerivation := ⟨fun _ _ _ => true⟩

/-- Key Derivation Service sample in which the all-zero diversifier index is
invalid for every pool and every other index is valid. -/
def kds0 : KeyDerivation := ⟨fun _ _ j => decide (0 < j)⟩

/-- Claim C2: for every account, two consecutive default-address derivations
(z_getaddressforaccount with no explicit diversifier index) never return equal
Unified Addresses, because the per-account next-search-index cursor is
persisted past each returned index. -/
theorem C2_consecutive_default_addresses_distinct
    (kds : KeyDerivation) (account : Nat) (types : List ReceiverType)
    (cursor fuel1 fuel2 cur1 cur2 : Nat) (ua1 ua2 : UnifiedAddress)
    (h1 : z_getaddressforaccount kds account types cursor fuel1 = some (ua1, cur1))
    (h2 : z_getaddressforaccount kds account types cur1 fuel2 = some (ua2, cur2)) :
    ua1 ≠ ua2 := by
  simp only [z_getaddressforaccount] at h1 h2
  split at h1
  · simp at h1
  · split at h2
    · simp at h2
    · split at h1
      next j1 hf1 =>
        split at h2
        next j2 hf2 =>
          obtain ⟨ha1, hc1⟩ := by simpa using h1
          obtain ⟨ha2, hc2⟩ := by simpa using h2
          subst ha1
          subst ha2
          subst hc1
          have hge := findValidIndex_ge kds account types fuel2 (j1 + 1) j2 hf2
          intro heq
          have hji : j1 = j2 := congrArg UnifiedAddress.diversifierIndex heq
          omega
        next hf2 => simp at h2
      next hf1 => simp at h1

/-- Witness for C2 at a concrete Key Derivation Service, account, cursor and
fuel. -/
theorem C2_witness :
    z_getaddressforaccount kdsAll 0 fullReceiverSet 0 3 =
      some (⟨0, 0, fullReceiverSet⟩, 1) ∧
    z_getaddressforaccount kdsAll 0 fullReceiverSet 1 3 =
      some (⟨0, 1, fullReceiverSet⟩, 2) ∧
    (⟨0, 0, fullReceiverSet⟩ : UnifiedAddress) ≠ ⟨0, 1, fullReceiverSet⟩ :=
  ⟨by decide, by decide,
    C2_consecutive_default_addresses_distinct kdsAll 0 fullReceiverSet 0 3 3 1 2
      ⟨0, 0, fullReceiverSet⟩ ⟨0, 1, fullReceiverSet⟩ (by decide) (by decide)⟩

/-- Claim C4: if a default derivation returns a Unified Address with
diversifier index j, explicitly deriving at index j returns the identical
result (same address record: account, diversifier index and receiver
types). -/
theorem C4_default_then_explicit_roundtrip
    (kds : KeyDerivation) (account : Nat) (types : List ReceiverType)
    (cursor fuel cur : Nat) (ua : UnifiedAddress)
    (h : z_getaddressforaccount kds account types cursor fuel = some (ua, cur)) :
    deriveAddressAt kds account types ua.diversifierIndex = .ok ua := by
  simp only [z_getaddressforaccount] at h
  split at h
  · simp at h
  · rename_i hne
    split at h
    next j hf =>
      obtain ⟨ha, hc⟩ := by simpa using h
      subst ha
      have hd := findValidIndex_derivable kds account types fuel cursor j hf
      simp [deriveAddressAt, hd, hne]
    next hf => simp at h

/-- Witness for C4 at a concrete Key Derivation Service and account. -/
theorem C4_witness :
    deriveAddressAt kdsAll 0 fullReceiverSet
      (UnifiedAddress.diversifierIndex ⟨0, 0, fullReceiverSet⟩) =
      .ok ⟨0, 0, fullReceiverSet⟩ :=
  C4_default_then_explicit_roundtrip kdsAll 0 fullReceiverSet 0 3 1
    ⟨0, 0, fullReceiverSet⟩ (by decide)

/-- Claim C5 as stated is refuted: a default derivation (here: the second
back-to-back default derivation on the account, whose cursor has advanced to
1) can return diversifier index 1 > 0 even though explicit derivation at
index 0 succeeds, because the scan started at the persisted cursor, not at 0.
Under the claim, the explicit derivation at 0 would have to fail with
InvalidDiversifier. -/
theorem C5_counterexample :
    z_getaddressforaccount kdsAll 0 fullReceiverSet 0 3 =
      some (⟨0, 0, fullReceiverSet⟩, 1) ∧
    z_getaddressforaccount kdsAll 0 fullReceiverSet 1 3 =
      some (⟨0, 1, fullReceiverSet⟩, 2) ∧
    0 < (1 : Nat) ∧
    deriveAddressAt kdsAll 0 fullReceiverSet 0 =
      .ok ⟨0, 0, fullReceiverSet⟩ := by
  decide

/-- Claim C5 (amended): if the account's first default derivation — the scan
starting from cursor 0 — returns a Unified Address with diversifier index
j > 0, then explicitly deriving at index 0 fails with InvalidDiversifier, and
the error identifies the failing index 0. -/
theorem C5_amended_first_default_positive_index
    (kds : KeyDerivation) (account : Nat) (types : List ReceiverType)
    (fuel cur : Nat) (ua : UnifiedAddress)
    (h : z_getaddressforaccount kds account types 0 fuel = some (ua, cur))
    (hj : 0 < ua.diversifierIndex) :
    deriveAddressAt kds account types 0 = .error (.invalidDiversifier 0) := by
  simp only [z_getaddressforaccount] at h
  split at h
  · simp at h
  · rename_i hne
    split at h
    next j hf =>
      obtain ⟨ha, hc⟩ := by simpa using h
      have hjj : 0 < j := by
        have := congrArg UnifiedAddress.diversifierIndex ha
        simp at this
        omega
      have h0 : derivable kds account types 0 = false :=
        findValidIndex_not_before kds account types fuel 0 j hf 0
          (Nat.le_refl 0) hjj
      simp [deriveAddressAt, hne, h0]
    next hf => simp at h

/-- Witness for the amended C5 at a concrete Key Derivation Service for which
index 0 is invalid, so the first default derivation lands at index 1. -/
theorem C5_witness :
    deriveAddressAt kds0 0 fullReceiverSet 0 =
      .error (.invalidDiversifier 0) :=
  C5_amended_first_default_positive_index kds0 0 fullReceiverSet 3 2
    ⟨0, 1, fullReceiverSet⟩ (by decide) (by decide)

theorem dedup_receiver_props (types : List ReceiverType) (hne : types ≠ []) :
    (∀ t, t ∈ types.dedup ↔ t ∈ types) ∧ types.dedup ≠ [] ∧
      (ReceiverType.transparent ∉ types →
        ReceiverType.transparent ∉ types.dedup) := by
  refine ⟨fun t => List.mem_dedup, ?_, fun hout hin => hout (List.mem_dedup.mp hin)⟩
  obtain ⟨t, ht⟩ := List.exists_mem_of_ne_nil types hne
  exact List.ne_nil_of_mem (List.mem_dedup.mpr ht)

/-- Claim C9: a derived Unified Address's receiver set is exactly the
requested receiver-type set (so requesting only the two shielded pools never
yields a Transparent receiver), it is a subset of the requested types, and it
is never empty.  Stated both for explicit derivation and for default
derivation. -/
theorem C9_receiver_set_exactly_requested :
    (∀ (kds : KeyDerivation) (account : Nat) (types : List ReceiverType)
        (j : Nat) (ua : UnifiedAddress),
      deriveAddressAt kds account types j = .ok ua →
        (∀ t, t ∈ ua.receiverTypes ↔ t ∈ types) ∧
        ua.receiverTypes ≠ [] ∧
        (ReceiverType.transparent ∉ types →
          ReceiverType.transparent ∉ ua.receiverTypes)) ∧
    (∀ (kds : KeyDerivation) (account : Nat) (types : List ReceiverType)
        (cursor fuel cur : Nat) (ua : UnifiedAddress),
      z_getaddressforaccount kds account types cursor fuel = some (ua, cur) →
        (∀ t, t ∈ ua.receiverTypes ↔ t ∈ types) ∧
        ua.receiverTypes ≠ [] ∧
        (ReceiverType.transparent ∉ types →
          ReceiverType.transparent ∉ ua.receiverTypes)) := by
  constructor
  · intro kds account types j ua h
    simp only [deriveAddressAt] at h
    split at h
    · simp at h
    · rename_i hne
      split at h
      · obtain ha := by simpa using h
        subst ha
        exact dedup_receiver_props types (by simpa using hne)
      · simp at h
  · intro kds account types cursor fuel cur ua h
    simp only [z_getaddressforaccount] at h
    split at h
    · simp at h
    · rename_i hne
      split at h
      next j hf =>
        obtain ⟨ha, hc⟩ := by simpa using h
        subst ha
        exact dedup_receiver_props types (by simpa using hne)
      next hf => simp at h

/-- Witness for C9 at the fully-shielded request from the test
(receiver types sapling and orchard only). -/
theorem C9_witness :
    UnifiedAddress.receiverTypes
        ⟨0, 5, [ReceiverType.poolA, ReceiverType.poolB]⟩ ≠ [] ∧
    ReceiverType.transparent ∉ UnifiedAddress.receiverTypes
        ⟨0, 5, [ReceiverType.poolA, ReceiverType.poolB]⟩ :=
  ⟨(C9_receiver_set_exactly_requested.1 kdsAll 0
      [ReceiverType.poolA, ReceiverType.poolB] 5
      ⟨0, 5, [ReceiverType.poolA, ReceiverType.poolB]⟩ (by decide)).2.1,
   (C9_receiver_set_exactly_requested.1 kdsAll 0
      [ReceiverType.poolA, ReceiverType.poolB] 5
      ⟨0, 5, [ReceiverType.poolA, ReceiverType.poolB]⟩ (by decide)).2.2
     (by decide)⟩

/-- Modelled from the spec: a Note/UTXO ledger entry of the shielded pools:
pool tag, value in smallest-denomination units (zatoshis), owning account, the
diversifier index of the Unified Address the note was received on, confirmation
height (none while unconfirmed) and a spent flag.  The wallet's note store is
not under src/. -/
structure Note where
  pool : ReceiverType
  valueZat : Nat
  account : Nat
  addrIndex : Nat
  confHeight : Option Nat
  spent : Bool
deriving DecidableEq

/-- Modelled from the spec: confirmation-depth filter of the Balance
Calculator: a note counts only if it is unspent and either minConfirmations is
0 (include unconfirmed) or chainHeight - note.confirmationHeight + 1 is at
least minConfirmations. -/
def noteCounts (chainHeight minConf : Nat) (n : Note) : Bool :=
  !n.spent &&
    (decide (minConf = 0) ||
      match n.confHeight with
      | none => false
      | some h => decide (minConf ≤ chainHeight - h + 1))

/-- Enumeration of all pools, in the fixed presentation order. -/
def allPools : List ReceiverType :=
  [.transparent, .poolA, .poolB]

/-- Value, per pool, of the counted notes of one account. -/
def poolBalanceZat (notes : List Note) (chainHeight minConf acct : Nat)
    (p : ReceiverType) : Nat :=
  ((notes.filter (fun n => decide (n.account = acct) && decide (n.pool = p) &&
      noteCounts chainHeight minConf n)).map Note.valueZat).sum

/-- Modelled from the spec: GetBalance with an Account scope
(z_getbalanceforaccount, whose wallet-side implementation is not under src/):
per-pool sums of counted unspent notes, with zero-valued pools omitted from the
result. -/
def z_getbalanceforaccount (notes : List Note) (chainHeight minConf acct : Nat) :
    List (ReceiverType × Nat) :=
  (allPools.map
      (fun p => (p, poolBalanceZat notes chainHeight minConf acct p))).filter
    (fun e => decide (e.2 ≠ 0))

/-- Modelled from the spec: a ViewingKey is a read-only capability over one
account, scoped to exactly the pools present in the address it was exported
from. -/
structure ViewingKey where
  account : Nat
  pools : List ReceiverType
deriving DecidableEq

/-- Modelled from the spec: ExportViewingKey (z_exportviewingkey, whose
wallet-side implementation is not under src/) derives a read-only capability
scoped to exactly the pools present in the input address. -/
def z_exportviewingkey (ua : UnifiedAddress) : ViewingKey :=
  ⟨ua.account, ua.receiverTypes⟩

/-- Visibility of a note to a viewing key: same account, and the note's pool is
within the key's scope. -/
def noteVisibleToVk (vk : ViewingKey) (n : Note) : Bool :=
  decide (n.account = vk.account) && decide (n.pool ∈ vk.pools)

/-- Value, per pool, of the counted notes visible to a viewing key. -/
def vkPoolBalanceZat (notes : List Note) (chainHeight minConf : Nat)
    (vk : ViewingKey) (p : ReceiverType) : Nat :=
  ((notes.filter (fun n => noteVisibleToVk vk n && decide (n.pool = p) &&
      noteCounts chainHeight minConf n)).map Note.valueZat).sum

/-- Modelled from the spec: GetBalance with a ViewingKey scope
(z_getbalanceforviewingkey, whose wallet-side implementation is not under
src/): per-pool sums of the counted unspent notes visible to the key, with
zero-valued pools omitted. -/
def z_getbalanceforviewingkey (notes : List Note) (chainHeight minConf : Nat)
    (vk : ViewingKey) : List (ReceiverType × Nat) :=
  (allPools.map
      (fun p => (p, vkPoolBalanceZat notes chainHeight minConf vk p))).filter
    (fun e => decide (e.2 ≠ 0))

/-- Claim C3 as stated is refuted: a viewing key exported from an address is
scoped to exactly the pools present in that address, so exporting from a
shielded-only address of an account that also holds a transparent note makes
the two balance queries disagree at the same minConfirmations. -/
theorem C3_counterexample :
    z_getbalanceforaccount [⟨.transparent, 5, 0, 0, some 10, false⟩] 10 1 0 =
      [(.transparent, 5)] ∧
    z_getbalanceforviewingkey [⟨.transparent, 5, 0, 0, some 10, false⟩] 10 1
      (z_exportviewingkey ⟨0, 0, [.poolA, .poolB]⟩) = [] ∧
    ([(ReceiverType.transparent, 5)] : List (ReceiverType × Nat)) ≠ [] := by
  decide

/-- Claim C3 (amended): for every account and every minConfirmations value, the
balance queried by Account and the balance queried by a ViewingKey exported
from one of the account's addresses agree, provided the address carries every
receiver type (so the exported key's scope covers all pools and the key is a
full read-only projection of the account's notes). -/
theorem C3_amended_balance_account_eq_viewingkey
    (notes : List Note) (chainHeight minConf : Nat) (ua : UnifiedAddress)
    (hfull : ∀ p : ReceiverType, p ∈ ua.receiverTypes) :
    z_getbalanceforviewingkey notes chainHeight minConf
        (z_exportviewingkey ua) =
      z_getbalanceforaccount notes chainHeight minConf ua.account := by
  have hpool : ∀ p, vkPoolBalanceZat notes chainHeight minConf
      (z_exportviewingkey ua) p =
      poolBalanceZat notes chainHeight minConf ua.account p := by
    intro p
    unfold vkPoolBalanceZat poolBalanceZat
    have hpred : (fun n => noteVisibleToVk (z_exportviewingkey ua) n &&
          decide (n.pool = p) && noteCounts chainHeight minConf n) =
        (fun n => decide (n.account = ua.account) && decide (n.pool = p) &&
          noteCounts chainHeight minConf n) := by
      funext n
      simp [noteVisibleToVk, z_exportviewingkey, hfull n.pool]
    rw [hpred]
  have hfun : (fun p => (p, vkPoolBalanceZat notes chainHeight minConf
        (z_exportviewingkey ua) p)) =
      (fun p => (p, poolBalanceZat notes chainHeight minConf ua.account p)) :=
    funext fun p => by rw [hpool p]
  simp only [z_getbalanceforviewingkey, z_getbalanceforaccount, hfun]

/-- Witness for the amended C3 at a concrete ledger and a full-receiver
address. -/
theorem C3_witness :
    z_getbalanceforviewingkey [⟨.poolA, 1000000000, 0, 0, some 206, false⟩]
        206 1 (z_exportviewingkey ⟨0, 0, fullReceiverSet⟩) =
      z_getbalanceforaccount [⟨.poolA, 1000000000, 0, 0, some 206, false⟩]
        206 1 0 :=
  C3_amended_balance_account_eq_viewingkey
    [⟨.poolA, 1000000000, 0, 0, some 206, false⟩] 206 1
    ⟨0, 0, fullReceiverSet⟩ (by decide)

/-- Claim C7 as stated is refuted on its first scenario clause: a note whose
confirmation height equals the chain height — i.e. confirmed in the
immediately preceding block, with one confirmation — is INCLUDED in the
balance at minconf = 1 by the claim's own counting rule
(chainHeight - confirmationHeight + 1 = 1 >= 1), not excluded. -/
theorem C7_counterexample :
    z_getbalanceforaccount [⟨.poolA, 1000000000, 0, 0, some 100, false⟩]
        100 1 0 = [(.poolA, 1000000000)] ∧
    ([(ReceiverType.poolA, 1000000000)] : List (ReceiverType × Nat)) ≠ [] := by
  decide

/-- Claim C7 (amended): under GetBalance with minconf = 1, a note whose
transaction is not yet mined (no confirmation height) is excluded from the
balance, and once a confirming block mines it, it is included with exact value
equality; in general a note counts exactly when it is unspent and either
minConfirmations = 0 or chainHeight - note.confirmationHeight + 1 is at least
minConfirmations. -/
theorem C7_amended_minconf_filter
    (p : ReceiverType) (v acct ai chainHeight : Nat)
    (hv : v ≠ 0) :
    z_getbalanceforaccount [⟨p, v, acct, ai, none, false⟩]
        chainHeight 1 acct = [] ∧
    z_getbalanceforaccount [⟨p, v, acct, ai, some (chainHeight + 1), false⟩]
        (chainHeight + 1) 1 acct = [(p, v)] ∧
    (∀ m : Note, ∀ minConf chainH : Nat,
      noteCounts chainH minConf m = true ↔
        (m.spent = false ∧ (minConf = 0 ∨
          ∃ h, m.confHeight = some h ∧ minConf ≤ chainH - h + 1))) := by
  refine ⟨?_, ?_, ?_⟩
  · simp [z_getbalanceforaccount, poolBalanceZat, noteCounts, allPools,
      List.filter_cons]
  · have hc : noteCounts (chainHeight + 1) 1
        ⟨p, v, acct, ai, some (chainHeight + 1), false⟩ = true := by
      simp [noteCounts]
    cases p <;>
      simp [z_getbalanceforaccount, poolBalanceZat, hc, allPools,
        List.filter_cons, hv]
  · intro m minConf chainH
    obtain ⟨mp, mv, ma, mai, mch, msp⟩ := m
    cases msp <;> cases mch <;> cases minConf <;>
      simp [noteCounts]

/-- Witness for the amended C7 at a concrete note and chain height. -/
theorem C7_witness :
    z_getbalanceforaccount
        [⟨.poolA, 1000000000, 0, 0, none, false⟩] 5 1 0 = [] ∧
    z_getbalanceforaccount
        [⟨.poolA, 1000000000, 0, 0, some 6, false⟩] 6 1 0 =
      [(.poolA, 1000000000)] :=
  ⟨(C7_amended_minconf_filter ReceiverType.poolA 1000000000 0 0 5
      (by decide)).1,
   (C7_amended_minconf_filter ReceiverType.poolA 1000000000 0 0 5
      (by decide)).2.1⟩

/-- Modelled from the spec: the single-address balance query (z_getbalance on
an address, whose wallet-side implementation is not under src/): sums the
counted unspent notes received on the given Unified Address, i.e. the notes of
its account that sit at its diversifier index. -/
def z_getbalance (notes : List Note) (chainHeight minConf : Nat)
    (ua : UnifiedAddress) : Nat :=
  ((notes.filter (fun n => decide (n.account = ua.account) &&
      decide (n.addrIndex = ua.diversifierIndex) &&
      noteCounts chainHeight minConf n)).map Note.valueZat).sum

/-- Total counted value of one account across all pools. -/
def accountTotalZat (notes : List Note) (chainHeight minConf acct : Nat) : Nat :=
  ((notes.filter (fun n => decide (n.account = acct) &&
      noteCounts chainHeight minConf n)).map Note.valueZat).sum

/-- Sum of the values of a per-pool balance map. -/
def balanceMapTotal (m : List (ReceiverType × Nat)) : Nat :=
  (m.map (fun e => e.2)).sum

theorem sum_filter_ne_zero (l : List (ReceiverType × Nat)) :
    ((l.filter (fun e => decide (e.2 ≠ 0))).map (fun e => e.2)).sum =
      (l.map (fun e => e.2)).sum := by
  induction l with
  | nil => rfl
  | cons e rest ih =>
    simp only [ne_eq, decide_not] at ih ⊢
    by_cases h : e.2 = 0
    · simp [List.filter_cons, h, ih]
    · simp [List.filter_cons, h, ih]

theorem sum_pools_eq_accountTotal (notes : List Note)
    (chainHeight minConf acct : Nat) :
    (allPools.map (fun p => poolBalanceZat notes chainHeight minConf acct p)).sum
      = accountTotalZat notes chainHeight minConf acct := by
  induction notes with
  | nil => simp [allPools, poolBalanceZat, accountTotalZat]
  | cons n rest ih =>
    have hstep : ∀ p, poolBalanceZat (n :: rest) chainHeight minConf acct p =
        (if (decide (n.account = acct) && decide (n.pool = p) &&
            noteCounts chainHeight minConf n) = true
          then n.valueZat else 0) +
          poolBalanceZat rest chainHeight minConf acct p := by
      intro p
      simp only [poolBalanceZat, List.filter_cons]
      split
      · simp
      · simp
    have hatot : accountTotalZat (n :: rest) chainHeight minConf acct =
        (if (decide (n.account = acct) &&
            noteCounts chainHeight minConf n) = true
          then n.valueZat else 0) +
          accountTotalZat rest chainHeight minConf acct := by
      simp only [accountTotalZat, List.filter_cons]
      split
      · simp
      · simp
    simp only [allPools, List.map_cons, List.map_nil, List.sum_cons,
      List.sum_nil] at ih ⊢
    rw [hstep, hstep, hstep, hatot]
    cases hacc : decide (n.account = acct) <;>
      cases hcnt : noteCounts chainHeight minConf n <;>
      cases hp : n.pool <;> simp [hp] <;> omega

theorem balanceMapTotal_getbalanceforaccount (notes : List Note)
    (chainHeight minConf acct : Nat) :
    balanceMapTotal (z_getbalanceforaccount notes chainHeight minConf acct) =
      accountTotalZat notes chainHeight minConf acct := by
  unfold balanceMapTotal z_getbalanceforaccount
  rw [sum_filter_ne_zero, List.map_map]
  exact sum_pools_eq_accountTotal notes chainHeight minConf acct

/-- Claim C10 as stated is refuted: the single-address query is scoped to the
notes received on that address, so when an account holds notes on two
different addresses, z_getbalance on one address differs from the sum over all
pools of the per-account balance map. -/
theorem C10_counterexample :
    z_getbalance
        [⟨.poolA, 500, 7, 0, some 10, false⟩,
         ⟨.poolB, 300, 7, 1, some 10, false⟩] 10 1
        ⟨7, 0, fullReceiverSet⟩ = 500 ∧
    balanceMapTotal (z_getbalanceforaccount
        [⟨.poolA, 500, 7, 0, some 10, false⟩,
         ⟨.poolB, 300, 7, 1, some 10, false⟩] 10 1 7) = 800 ∧
    (500 : Nat) ≠ 800 := by
  decide

/-- Claim C10 (amended): for every account, its Unified Address, and every
minConfirmations value, if every note of the account was received on that
address (the test scenario: each account only ever receives on one address),
then z_getbalance on the address returns exactly the sum over all pools of the
per-account balance map at the same minConfirmations. -/
theorem C10_amended_address_balance_eq_account_total
    (notes : List Note) (chainHeight minConf : Nat) (ua : UnifiedAddress)
    (haddr : ∀ n ∈ notes, n.account = ua.account →
      n.addrIndex = ua.diversifierIndex) :
    z_getbalance notes chainHeight minConf ua =
      balanceMapTotal
        (z_getbalanceforaccount notes chainHeight minConf ua.account) := by
  rw [balanceMapTotal_getbalanceforaccount]
  unfold z_getbalance accountTotalZat
  have hfilter : notes.filter (fun n => decide (n.account = ua.account) &&
        decide (n.addrIndex = ua.diversifierIndex) &&
        noteCounts chainHeight minConf n) =
      notes.filter (fun n => decide (n.account = ua.account) &&
        noteCounts chainHeight minConf n) := by
    apply List.filter_congr
    intro n hn
    by_cases hacc : n.account = ua.account
    · simp [hacc, haddr n hn hacc]
    · simp [hacc]
  rw [hfilter]

/-- Witness for the amended C10 at a concrete single-address ledger. -/
theorem C10_witness :
    z_getbalance
        [⟨.poolA, 900000000, 0, 0, some 206, false⟩,
         ⟨.poolB, 1000000000, 0, 0, some 210, false⟩] 210 1
        ⟨0, 0, fullReceiverSet⟩ =
      balanceMapTotal (z_getbalanceforaccount
        [⟨.poolA, 900000000, 0, 0, some 206, false⟩,
         ⟨.poolB, 1000000000, 0, 0, some 210, false⟩] 210 1 0) :=
  C10_amended_address_balance_eq_account_total
    [⟨.poolA, 900000000, 0, 0, some 206, false⟩,
     ⟨.poolB, 1000000000, 0, 0, some 210, false⟩] 210 1
    ⟨0, 0, fullReceiverSet⟩ (by decide)

/-- Shielded pools (everything except the transparent legacy pool). -/
def shieldedPools : List ReceiverType :=
  [.poolA, .poolB]

/-- Total counted value across all shielded pools for all accounts in the
wallet. -/
def privateZat (notes : List Note) (chainHeight minConf : Nat) : Nat :=
  ((notes.filter (fun n => decide (n.pool ∈ shieldedPools) &&
      noteCounts chainHeight minConf n)).map Note.valueZat).sum

/-- Zero-padded 8-digit decimal fraction of a zatoshi amount. -/
def pad8 (frac : Nat) : List Char :=
  List.replicate (8 - (Nat.toDigits 10 frac).length) '0' ++ Nat.toDigits 10 frac

/-- Rendering stated by the spec for z_gettotalbalance: fixed-point decimal
with exactly 8 fractional digits. -/
def renderFixed8 (zat : Nat) : String :=
  (Nat.toDigits 10 (zat / 100000000) ++ '.' :: pad8 (zat % 100000000)).asString

/-- Drop leading zero characters of a reversed fraction while at least two
characters remain. -/
def dropTrailing : List Char → List Char
  | [] => []
  | c :: rest =>
    if c == '0' && decide (2 ≤ rest.length) then dropTrailing rest
    else c :: rest

/-- Rendering observed in the test assertions: fixed-point decimal with the
trailing fractional zeros trimmed, keeping at least two fractional digits
(FormatMoney-style, producing strings such as "9.00"). -/
def formatMoney (zat : Nat) : String :=
  (Nat.toDigits 10 (zat / 100000000) ++
    '.' :: (dropTrailing (pad8 (zat % 100000000)).reverse).reverse).asString

/-- Modelled from the spec and from the test's asserted output: the private
field of z_gettotalbalance (wallet implementation not under src/): the sum
across all shielded pools for all accounts, rendered with trailing-zero
trimming as wallet_accounts.py line 189 asserts ("9.00"). -/
def z_gettotalbalance_private (notes : List Note) (chainHeight minConf : Nat) :
    String :=
  formatMoney (privateZat notes chainHeight minConf)

/-- Ledger of wallet_accounts.py lines 185-190: account 0 holds a confirmed
9-ZEC sapling note and a still-unmined 10-ZEC orchard note; the chain height is
210. -/
def accountsTestNotes : List Note :=
  [⟨.poolA, 900000000, 0, 0, some 205, false⟩,
   ⟨.poolB, 1000000000, 0, 0, none, false⟩]

/-- Claim C8 as stated is refuted: rendering the private total of the test
scenario with 8 fractional digits gives "9.00000000", but the test
(wallet_accounts.py line 189) asserts that z_gettotalbalance returns exactly
"9.00", so the private field is not rendered with 8 fractional digits. -/
theorem C8_counterexample :
    renderFixed8 (privateZat accountsTestNotes 210 1) = "9.00000000" ∧
    z_gettotalbalance_private accountsTestNotes 210 1 = "9.00" ∧
    ("9.00000000" : String) ≠ "9.00" := by
  decide

theorem dropTrailing_restores (l : List Char) :
    ∃ k, List.replicate k '0' ++ dropTrailing l = l := by
  induction l with
  | nil => exact ⟨0, rfl⟩
  | cons c rest ih =>
    by_cases h : (c == '0' && decide (2 ≤ rest.length)) = true
    · obtain ⟨k, hk⟩ := ih
      have hc : c = '0' := by
        have hb := (Bool.and_eq_true _ _).mp h
        exact eq_of_beq hb.1
      refine ⟨k + 1, ?_⟩
      have hstep : dropTrailing (c :: rest) = dropTrailing rest := by
        simp only [dropTrailing, h, if_true]
      rw [hstep, List.replicate_succ, List.cons_append, hk, hc]
    · exact ⟨0, by simp [dropTrailing, h]⟩

theorem dropTrailing_min_length (l : List Char) :
    min 2 l.length ≤ (dropTrailing l).length := by
  induction l with
  | nil => simp [dropTrailing]
  | cons c rest ih =>
    by_cases h : (c == '0' && decide (2 ≤ rest.length)) = true
    · have h2 : 2 ≤ rest.length := of_decide_eq_true ((Bool.and_eq_true _ _).mp h).2
      simp only [dropTrailing, h, if_true]
      omega
    · simp [dropTrailing, h]

theorem pad8_min_length (m : Nat) : 2 ≤ (pad8 m).length := by
  simp only [pad8, List.length_append, List.length_replicate]
  omega

/-- Claim C8 (amended): the private field of z_gettotalbalance is the sum
across all shielded pools for all accounts in the wallet, rendered as a
fixed-point decimal whose fractional part is the 8-digit fraction with its
trailing zeros trimmed, never to fewer than two digits — matching the test's
asserted outputs "9.00" (default minconf) and "19.00" (minconf 0). -/
theorem C8_amended_private_rendering :
    z_gettotalbalance_private accountsTestNotes 210 1 = "9.00" ∧
    z_gettotalbalance_private accountsTestNotes 210 0 = "19.00" ∧
    (∀ notes chainHeight minConf,
      ∃ frac : List Char,
        (z_gettotalbalance_private notes chainHeight minConf).data =
          Nat.toDigits 10
            (privateZat notes chainHeight minConf / 100000000) ++
            '.' :: frac ∧
        2 ≤ frac.length ∧
        ∃ k, frac ++ List.replicate k '0' =
          pad8 (privateZat notes chainHeight minConf % 100000000)) := by
  refine ⟨by decide, by decide, ?_⟩
  intro notes chainHeight minConf
  refine ⟨(dropTrailing
    (pad8 (privateZat notes chainHeight minConf % 100000000)).reverse).reverse,
    rfl, ?_, ?_⟩
  · have hd := dropTrailing_min_length
      (pad8 (privateZat notes chainHeight minConf % 100000000)).reverse
    have hp := pad8_min_length (privateZat notes chainHeight minConf % 100000000)
    simp only [List.length_reverse] at hd ⊢
    omega
  · obtain ⟨k, hk⟩ := dropTrailing_restores
      (pad8 (privateZat notes chainHeight minConf % 100000000)).reverse
    refine ⟨k, ?_⟩
    have hrev := congrArg List.reverse hk
    simpa [List.reverse_append, List.reverse_reverse, List.reverse_replicate]
      using hrev

/-- Modelled from the spec: a transparent (legacy-pool) output as seen by the
UTXO Selection and Lock Manager: stable ordering key (outpoint id), value,
owning transparent address, coinbase origin, confirmation and spent flags, and
whether the wallet merely watches the address without spending authority. -/
structure Utxo where
  utxoId : Nat
  valueZat : Nat
  addr : Nat
  coinbase : Bool
  confirmed : Bool
  spent : Bool
  watchOnly : Bool
deriving DecidableEq

/-- Modelled from the spec: the Lock Manager's wallet state: the transparent
outputs and the lock table of outpoint ids reserved by in-flight
operations. -/
structure UtxoState where
  utxos : List Utxo
  locked : List Nat
deriving DecidableEq

/-- Source selector of a shielding request: one specific transparent address,
or the wildcard over all spendable transparent addresses. -/
inductive Selector
  | specific (addr : Nat)
  | wildcard
deriving DecidableEq

/-- Does a UTXO match the selector?  The optional excluded address applies to
the wildcard only. -/
def selectorMatches : Selector → Option Nat → Utxo → Bool
  | .specific a, _, u => decide (u.addr = a)
  | .wildcard, some a, u => decide (u.addr ≠ a)
  | .wildcard, none, _ => true

/-- Eligibility apart from the lock table: confirmed, unspent,
coinbase-originated, spendable (not watch-only) and matching the selector. -/
def eligibleBase (sel : Selector) (excl : Option Nat) (u : Utxo) : Bool :=
  u.confirmed && !u.spent && u.coinbase && !u.watchOnly &&
    selectorMatches sel excl u

/-- Modelled from the spec: the eligible sources of SelectAndLock: confirmed,
unspent, coinbase outputs the wallet can spend, matching the selector, not
currently locked by another in-flight operation. -/
def eligibleUtxos (s : UtxoState) (sel : Selector) (excl : Option Nat) :
    List Utxo :=
  s.utxos.filter (fun u => eligibleBase sel excl u &&
    !decide (u.utxoId ∈ s.locked))

/-- Order on UTXOs by the stable outpoint key. -/
def leId (u v : Utxo) : Prop := u.utxoId ≤ v.utxoId

instance : DecidableRel leId := fun u v => Nat.decLe u.utxoId v.utxoId

instance : IsTotal Utxo leId := ⟨fun u v => Nat.le_total u.utxoId v.utxoId⟩

instance : IsTrans Utxo leId := ⟨fun _ _ _ h1 h2 => Nat.le_trans h1 h2⟩

/-- Strict order on UTXOs by the stable outpoint key. -/
def ltId (u v : Utxo) : Prop := u.utxoId < v.utxoId

instance : IsAntisymm Utxo ltId :=
  ⟨fun _ _ h1 h2 => absurd h2 (Nat.lt_asymm h1)⟩

/-- Deterministic candidate ordering of SelectAndLock: ascending by the stable
outpoint key. -/
def sortById (l : List Utxo) : List Utxo := List.insertionSort leId l

/-- Errors of the shielding request path. -/
inductive ShieldError
  | amountOutOfRange
  | invalidLimit
  | noEligibleSource
deriving DecidableEq

/-- Verbatim reason text surfaced to the caller, as asserted by
wallet_shieldcoinbase.py. -/
def shieldErrorMessage : ShieldError → String
  | .amountOutOfRange => "Amount out of range"
  | .invalidLimit => "Limit on maximum number of utxos cannot be negative"
  | .noEligibleSource =>
    "Invalid from address, no payment source found for address."

/-- Maximum representable money value in zatoshis (21000000 ZEC). -/
def maxMoneyZat : Int := 2100000000000000

/-- Result of the synchronous selection phase of a shielding request. -/
structure SelectResult where
  selected : List Utxo
  remainingUTXOs : Nat
  remainingValueZat : Nat
deriving DecidableEq

/-- Modelled from the spec: SelectAndLock with an already-validated effective
cap: order the eligible sources deterministically, fail with NoEligibleSource
when nothing is spendable, otherwise select up to cap outputs, atomically mark
them locked before returning, and report the remaining count and value. -/
def selectAndLockCap (s : UtxoState) (sel : Selector) (excl : Option Nat)
    (cap : Nat) : Except ShieldError (SelectResult × UtxoState) :=
  if sortById (eligibleUtxos s sel excl) = [] then .error .noEligibleSource
  else
    .ok (⟨(sortById (eligibleUtxos s sel excl)).take cap,
          ((sortById (eligibleUtxos s sel excl)).drop cap).length,
          (((sortById (eligibleUtxos s sel excl)).drop cap).map
            Utxo.valueZat).sum⟩,
         ⟨s.utxos, s.locked ++
           ((sortById (eligibleUtxos s sel excl)).take cap).map Utxo.utxoId⟩)

/-- System default cap on the number of selected UTXOs. -/
def defaultShieldLimit : Nat := 50

/-- Effective cap from the optional limit argument: unspecified and 0 both
apply the system default cap. -/
def effectiveCap : Option Int → Nat
  | none => defaultShieldLimit
  | some l => if l ≤ 0 then defaultShieldLimit else l.toNat

/-- Is the limit argument negative? -/
def limitNegative : Option Int → Bool
  | none => false
  | some l => decide (l < 0)

/-- Modelled from the spec: the synchronous validation and selection phase of
z_shieldcoinbase (wallet implementation not under src/): the fee must be
nonnegative and at most the maximum money value (else AmountOutOfRange), the
limit must be nonnegative (else InvalidLimit); validation failures are
detected before any lock side effect, so the state comes back unchanged. -/
def z_shieldcoinbase (s : UtxoState) (sel : Selector) (feeZat : Int)
    (limit : Option Int) (excl : Option Nat) :
    Except ShieldError SelectResult × UtxoState :=
  if feeZat < 0 ∨ maxMoneyZat < feeZat then (.error .amountOutOfRange, s)
  else if limitNegative limit then (.error .invalidLimit, s)
  else
    match selectAndLockCap s sel excl (effectiveCap limit) with
    | .error e => (.error e, s)
    | .ok (r, s2) => (.ok r, s2)

/-- Claim C6: a shielding request with fee -1 ZEC fails with AmountOutOfRange;
with fee 21000000.00000001 ZEC (one zatoshi above the maximum money value) it
fails with AmountOutOfRange; with limit -1 it fails with InvalidLimit whose
message is the asserted "Limit on maximum number of utxos cannot be negative";
each failure is synchronous and returns the wallet state unchanged, so no lock
or derivation side effect and no partial state remains. -/
theorem C6_validation_errors
    (s : UtxoState) (sel : Selector) (excl : Option Nat) (limit : Option Int)
    (feeZat : Int) :
    z_shieldcoinbase s sel (-100000000) limit excl =
      (.error .amountOutOfRange, s) ∧
    z_shieldcoinbase s sel 2100000000000001 limit excl =
      (.error .amountOutOfRange, s) ∧
    (0 ≤ feeZat → feeZat ≤ maxMoneyZat →
      z_shieldcoinbase s sel feeZat (some (-1)) excl =
        (.error .invalidLimit, s)) ∧
    shieldErrorMessage .amountOutOfRange = "Amount out of range" ∧
    shieldErrorMessage .invalidLimit =
      "Limit on maximum number of utxos cannot be negative" := by
  refine ⟨?_, ?_, ?_, rfl, rfl⟩
  · unfold z_shieldcoinbase
    rw [if_pos (Or.inl (by decide))]
  · unfold z_shieldcoinbase
    rw [if_pos (Or.inr (by decide))]
  · intro hlo hhi
    unfold z_shieldcoinbase
    rw [if_neg (by push_neg; exact ⟨hlo, hhi⟩), if_pos (by decide)]

/-- Witness for C6 at a concrete fee within range and an empty wallet
state. -/
theorem C6_witness :
    z_shieldcoinbase ⟨[], []⟩ .wildcard 100000 (some (-1)) none =
      (.error .invalidLimit, ⟨[], []⟩) :=
  (C6_validation_errors ⟨[], []⟩ .wildcard none (some 1) 100000).2.2.1
    (by decide) (by decide)

theorem sortById_perm (l : List Utxo) : List.Perm (sortById l) l :=
  List.perm_insertionSort leId l

theorem sortById_sorted (l : List Utxo) : List.Sorted leId (sortById l) :=
  List.sorted_insertionSort leId l

theorem sorted_ltId_of_nodup (l : List Utxo) (hs : List.Sorted leId l)
    (hn : (l.map Utxo.utxoId).Nodup) : List.Sorted ltId l := by
  have hne : l.Pairwise (fun u v : Utxo => u.utxoId ≠ v.utxoId) :=
    List.pairwise_map.mp hn
  exact List.Pairwise.imp (fun h => Nat.lt_of_le_of_ne h.1 h.2)
    (List.Pairwise.and hs hne)

theorem eq_of_perm_sorted_ids (l₁ l₂ : List Utxo) (hp : List.Perm l₁ l₂)
    (h1 : List.Sorted leId l₁) (h2 : List.Sorted leId l₂)
    (hn : (l₁.map Utxo.utxoId).Nodup) : l₁ = l₂ := by
  have hn2 : (l₂.map Utxo.utxoId).Nodup := (hp.map Utxo.utxoId).nodup_iff.mp hn
  exact List.eq_of_perm_of_sorted hp (sorted_ltId_of_nodup l₁ h1 hn)
    (sorted_ltId_of_nodup l₂ h2 hn2)

theorem eligible_append_locked (s : UtxoState) (ids : List Nat)
    (sel : Selector) (excl : Option Nat) :
    eligibleUtxos ⟨s.utxos, s.locked ++ ids⟩ sel excl =
      (eligibleUtxos s sel excl).filter
        (fun u => !decide (u.utxoId ∈ ids)) := by
  unfold eligibleUtxos
  rw [List.filter_filter]
  apply List.filter_congr
  intro u hu
  by_cases h1 : u.utxoId ∈ s.locked <;> by_cases h2 : u.utxoId ∈ ids <;>
    cases hb : eligibleBase sel excl u <;>
      simp [h1, h2, hb, List.mem_append]

theorem filter_not_mem_self_ids (t d : List Utxo)
    (hnd : ((t ++ d).map Utxo.utxoId).Nodup) :
    (t ++ d).filter (fun u => !decide (u.utxoId ∈ t.map Utxo.utxoId)) = d := by
  rw [List.filter_append]
  have h1 : t.filter
      (fun u => !decide (u.utxoId ∈ t.map Utxo.utxoId)) = [] := by
    rw [List.filter_eq_nil_iff]
    intro u hu
    simp only [Bool.not_eq_true, Bool.not_eq_true', decide_eq_false_iff_not,
      not_not]
    exact List.mem_map_of_mem Utxo.utxoId hu
  have hdisj : ∀ u ∈ d, u.utxoId ∉ t.map Utxo.utxoId := by
    rw [List.map_append] at hnd
    have hD := (List.nodup_append.mp hnd).2.2
    intro u hu hmem
    exact hD hmem (List.mem_map_of_mem Utxo.utxoId hu)
  have h2 : d.filter
      (fun u => !decide (u.utxoId ∈ t.map Utxo.utxoId)) = d := by
    rw [List.filter_eq_self]
    intro u hu
    simp [hdisj u hu]
  rw [h1, h2, List.nil_append]

/-- Claim C1: when SelectAndLock runs twice back-to-back on the same wallet
state — the first call capped below the number of eligible UTXOs, the second
call's cap covering the remainder the first reported — the two selected sets
are disjoint (no UTXO is locked by two concurrently active operations), the
second call selects exactly the remaining count and remaining value reported
by the first, the two selections together cover all eligible UTXOs exactly
once, and the final remainder is empty: the second call reports zero remaining
UTXOs and zero remaining value, and nothing is left eligible afterwards. -/
theorem C1_selectandlock_disjoint_cover
    (s : UtxoState) (sel : Selector) (excl : Option Nat) (c1 c2 : Nat)
    (r1 r2 : SelectResult) (s1 s2 : UtxoState)
    (hnd : (s.utxos.map Utxo.utxoId).Nodup)
    (hcap : c1 < (sortById (eligibleUtxos s sel excl)).length)
    (hc2 : (sortById (eligibleUtxos s sel excl)).length - c1 ≤ c2)
    (h1 : selectAndLockCap s sel excl c1 = .ok (r1, s1))
    (h2 : selectAndLockCap s1 sel excl c2 = .ok (r2, s2)) :
    (∀ u, u ∈ r1.selected → u ∉ r2.selected) ∧
    r2.selected.length = r1.remainingUTXOs ∧
    (r2.selected.map Utxo.valueZat).sum = r1.remainingValueZat ∧
    r1.selected ++ r2.selected = sortById (eligibleUtxos s sel excl) ∧
    r2.remainingUTXOs = 0 ∧ r2.remainingValueZat = 0 ∧
    eligibleUtxos s2 sel excl = [] := by
  have hEperm : List.Perm (sortById (eligibleUtxos s sel excl))
      (eligibleUtxos s sel excl) := sortById_perm _
  have hndE : ((sortById (eligibleUtxos s sel excl)).map Utxo.utxoId).Nodup := by
    have hsub : List.Sublist (eligibleUtxos s sel excl) s.utxos :=
      List.filter_sublist s.utxos
    have hn1 : ((eligibleUtxos s sel excl).map Utxo.utxoId).Nodup :=
      List.Nodup.sublist (List.Sublist.map Utxo.utxoId hsub) hnd
    exact (List.Perm.nodup_iff (List.Perm.map Utxo.utxoId hEperm)).mpr hn1
  have hEnil : ¬ sortById (eligibleUtxos s sel excl) = [] := by
    intro hnil
    rw [hnil] at hcap
    simp at hcap
  unfold selectAndLockCap at h1
  rw [if_neg hEnil] at h1
  have h1p := h1
  simp only [Except.ok.injEq, Prod.mk.injEq] at h1p
  obtain ⟨hr1, hs1⟩ := h1p
  subst hr1
  subst hs1
  have hElig1 : eligibleUtxos ⟨s.utxos, s.locked ++
      ((sortById (eligibleUtxos s sel excl)).take c1).map Utxo.utxoId⟩
      sel excl =
      (eligibleUtxos s sel excl).filter (fun u => !decide (u.utxoId ∈
        ((sortById (eligibleUtxos s sel excl)).take c1).map Utxo.utxoId)) :=
    eligible_append_locked s _ sel excl
  have hEtd : (sortById (eligibleUtxos s sel excl)).filter
      (fun u => !decide (u.utxoId ∈
        ((sortById (eligibleUtxos s sel excl)).take c1).map Utxo.utxoId)) =
      (sortById (eligibleUtxos s sel excl)).drop c1 := by
    have hx := filter_not_mem_self_ids
      ((sortById (eligibleUtxos s sel excl)).take c1)
      ((sortById (eligibleUtxos s sel excl)).drop c1)
      (by rw [List.take_append_drop]; exact hndE)
    rw [List.take_append_drop] at hx
    exact hx
  have hperm2 : List.Perm (sortById (eligibleUtxos ⟨s.utxos, s.locked ++
      ((sortById (eligibleUtxos s sel excl)).take c1).map Utxo.utxoId⟩
      sel excl))
      ((sortById (eligibleUtxos s sel excl)).drop c1) := by
    have ha := sortById_perm (eligibleUtxos ⟨s.utxos, s.locked ++
      ((sortById (eligibleUtxos s sel excl)).take c1).map Utxo.utxoId⟩
      sel excl)
    nth_rewrite 2 [hElig1] at ha
    have hb := List.Perm.filter (fun u => !decide (u.utxoId ∈
      ((sortById (eligibleUtxos s sel excl)).take c1).map Utxo.utxoId)) hEperm
    rw [hEtd] at hb
    exact ha.trans hb.symm
  have hnds : (((sortById (eligibleUtxos s sel excl)).drop c1).map
      Utxo.utxoId).Nodup :=
    List.Nodup.sublist
      (List.Sublist.map Utxo.utxoId (List.drop_sublist c1 _)) hndE
  have hcands2 : sortById (eligibleUtxos ⟨s.utxos, s.locked ++
      ((sortById (eligibleUtxos s sel excl)).take c1).map Utxo.utxoId⟩
      sel excl) =
      (sortById (eligibleUtxos s sel excl)).drop c1 := by
    apply eq_of_perm_sorted_ids _ _ hperm2
    · exact sortById_sorted _
    · exact List.Pairwise.sublist (List.drop_sublist c1 _) (sortById_sorted _)
    · exact (List.Perm.nodup_iff (List.Perm.map Utxo.utxoId hperm2)).mpr hnds
  unfold selectAndLockCap at h2
  rw [hcands2] at h2
  have hd2nil : ¬ (sortById (eligibleUtxos s sel excl)).drop c1 = [] := by
    intro hnil
    have hlen := congrArg List.length hnil
    rw [List.length_drop, List.length_nil] at hlen
    omega
  rw [if_neg hd2nil] at h2
  have h2p := h2
  simp only [Except.ok.injEq, Prod.mk.injEq] at h2p
  obtain ⟨hr2, hs2⟩ := h2p
  subst hr2
  subst hs2
  have htake2 : ((sortById (eligibleUtxos s sel excl)).drop c1).take c2 =
      (sortById (eligibleUtxos s sel excl)).drop c1 :=
    List.take_of_length_le (by rw [List.length_drop]; omega)
  have hdrop2 : ((sortById (eligibleUtxos s sel excl)).drop c1).drop c2 = [] :=
    List.drop_eq_nil_of_le (by rw [List.length_drop]; omega)
  refine ⟨?_, ?_, ?_, ?_, ?_, ?_, ?_⟩
  · intro u hu1 hu2
    rw [htake2] at hu2
    have hdisj : List.Disjoint
        (((sortById (eligibleUtxos s sel excl)).take c1).map Utxo.utxoId)
        (((sortById (eligibleUtxos s sel excl)).drop c1).map Utxo.utxoId) := by
      have hx := hndE
      rw [← List.take_append_drop c1 (sortById (eligibleUtxos s sel excl)),
        List.map_append] at hx
      exact (List.nodup_append.mp hx).2.2
    exact hdisj (List.mem_map_of_mem Utxo.utxoId hu1)
      (List.mem_map_of_mem Utxo.utxoId hu2)
  · show (((sortById (eligibleUtxos s sel excl)).drop c1).take c2).length =
      ((sortById (eligibleUtxos s sel excl)).drop c1).length
    rw [htake2]
  · show ((((sortById (eligibleUtxos s sel excl)).drop c1).take c2).map
        Utxo.valueZat).sum =
      (((sortById (eligibleUtxos s sel excl)).drop c1).map Utxo.valueZat).sum
    rw [htake2]
  · show (sortById (eligibleUtxos s sel excl)).take c1 ++
      ((sortById (eligibleUtxos s sel excl)).drop c1).take c2 =
      sortById (eligibleUtxos s sel excl)
    rw [htake2, List.take_append_drop]
  · show (((sortById (eligibleUtxos s sel excl)).drop c1).drop c2).length = 0
    rw [hdrop2]
    rfl
  · show ((((sortById (eligibleUtxos s sel excl)).drop c1).drop c2).map
      Utxo.valueZat).sum = 0
    rw [hdrop2]
    rfl
  · have hstep1 : eligibleUtxos ⟨s.utxos, (s.locked ++
        ((sortById (eligibleUtxos s sel excl)).take c1).map Utxo.utxoId) ++
        (((sortById (eligibleUtxos s sel excl)).drop c1).take c2).map
          Utxo.utxoId⟩ sel excl =
        (eligibleUtxos ⟨s.utxos, s.locked ++
          ((sortById (eligibleUtxos s sel excl)).take c1).map Utxo.utxoId⟩
          sel excl).filter (fun u => !decide (u.utxoId ∈
            (((sortById (eligibleUtxos s sel excl)).drop c1).take c2).map
              Utxo.utxoId)) :=
      eligible_append_locked ⟨s.utxos, s.locked ++
          ((sortById (eligibleUtxos s sel excl)).take c1).map Utxo.utxoId⟩
        ((((sortById (eligibleUtxos s sel excl)).drop c1).take c2).map
          Utxo.utxoId) sel excl
    have hq2 : ((sortById (eligibleUtxos s sel excl)).drop c1).filter
        (fun u => !decide (u.utxoId ∈
          (((sortById (eligibleUtxos s sel excl)).drop c1).take c2).map
            Utxo.utxoId)) = [] := by
      rw [htake2, List.filter_eq_nil_iff]
      intro u hu
      simp only [Bool.not_eq_true, Bool.not_eq_true', decide_eq_false_iff_not,
        not_not]
      exact List.mem_map_of_mem Utxo.utxoId hu
    have hfinal : List.Perm (eligibleUtxos ⟨s.utxos, (s.locked ++
        ((sortById (eligibleUtxos s sel excl)).take c1).map Utxo.utxoId) ++
        (((sortById (eligibleUtxos s sel excl)).drop c1).take c2).map
          Utxo.utxoId⟩ sel excl) [] := by
      rw [hstep1, hElig1]
      have hb := List.Perm.filter (fun u => !decide (u.utxoId ∈
        (((sortById (eligibleUtxos s sel excl)).drop c1).take c2).map
          Utxo.utxoId))
        (List.Perm.filter (fun u => !decide (u.utxoId ∈
          ((sortById (eligibleUtxos s sel excl)).take c1).map Utxo.utxoId))
          hEperm)
      rw [hEtd, hq2] at hb
      exact hb.symm
    exact List.Perm.eq_nil hfinal

/-- Sample coinbase outputs for the locking scenario. -/
def u1 : Utxo := ⟨1, 10, 0, true, true, false, false⟩

/-- Sample coinbase outputs for the locking scenario. -/
def u2 : Utxo := ⟨2, 20, 0, true, true, false, false⟩

/-- Sample coinbase outputs for the locking scenario. -/
def u3 : Utxo := ⟨3, 30, 0, true, true, false, false⟩

/-- Wallet state with three eligible coinbase outputs and an empty lock
table. -/
def lockDemoState : UtxoState := ⟨[u1, u2, u3], []⟩

/-- Witness for C1: on a concrete three-UTXO wallet, a first call capped at 1
and a remainder-covering second call select [u1] and [u2, u3], which together
are exactly the eligible candidate list. -/
theorem C1_witness :
    [u1] ++ [u2, u3] = sortById (eligibleUtxos lockDemoState .wildcard none) :=
  (C1_selectandlock_disjoint_cover lockDemoState .wildcard none 1 5
    ⟨[u1], 2, 50⟩ ⟨[u2, u3], 0, 0⟩ ⟨[u1, u2, u3], [1]⟩ ⟨[u1, u2, u3], [1, 2, 3]⟩
    (by decide) (by decide) (by decide) (by decide) (by decide)).2.2.2.1
